import Mathlib

/-!
Shallow embedding of the ShunyaCode meeting-room coordinator (the socket
server in the repository's server entry file): room registry, join/admit/
reject/kick/disconnect handlers, host-gated commands, the signaling relay
and the telemetry aggregator.  JavaScript `Map`s (insertion ordered) are
modelled as association lists with `mget`/`mset`/`mdel`/`mhas`; `setTimeout`
expiry timers are modelled as an optional deadline plus an explicit
`fireExpiry` transition that may only delete the room once the deadline has
passed and the timer has not been cleared.  Times (`Date.now()`) are
integer milliseconds, threaded as an explicit parameter; the telemetry
handler's `Date.now() / 1000` seconds with its one-second gate is modelled
exactly as the equivalent 1000-millisecond gate.  String trimming and
truncation are given structurally recursive definitions (`strTrim`,
`strTake`) so that all states and events evaluate inside the kernel.
Socket.io emissions are collected as a list of targeted events; delivery
resolution assumes meeting-room ids and session ids do not collide (the
server relies on the same disjointness when it passes both to `io.to`).
-/

namespace ShunyaCode

abbrev SessionId := String
abbrev RoomId := String

/-- Opaque telemetry snapshot (`emotion_data` array); the server never
inspects its contents, so entries are modelled as integers. -/
abbrev Snapshot := List Int

/-- Lookup by key in an insertion-ordered association list (JS `Map.get`). -/
def mget : List (String × α) → String → Option α
  | [], _ => none
  | (k', v) :: rest, k => if k' = k then some v else mget rest k

/-- Insert or update (JS `Map.set`): an existing key keeps its position,
a new key is appended at the end. -/
def mset : List (String × α) → String → α → List (String × α)
  | [], k, v => [(k, v)]
  | (k', v') :: rest, k, v =>
    if k' = k then (k, v) :: rest else (k', v') :: mset rest k v

/-- Removal by key (JS `Map.delete`). -/
def mdel : List (String × α) → String → List (String × α)
  | [], _ => []
  | (k', v') :: rest, k =>
    if k' = k then mdel rest k else (k', v') :: mdel rest k

/-- Key membership (JS `Map.has`). -/
def mhas (m : List (String × α)) (k : String) : Bool :=
  (mget m k).isSome

theorem mget_mset_self (m : List (String × α)) (k : String) (v : α) :
    mget (mset m k v) k = some v := by
  induction m with
  | nil => simp [mset, mget]
  | cons p rest ih =>
    by_cases h : p.1 = k <;> simp [mset, mget, h, ih]

theorem mget_mset_ne (m : List (String × α)) (k k' : String) (v : α)
    (h : k ≠ k') : mget (mset m k v) k' = mget m k' := by
  induction m with
  | nil => simp [mset, mget, h]
  | cons p rest ih =>
    by_cases hp : p.1 = k
    · simp [mset, mget, hp, h]
    · by_cases hp' : p.1 = k' <;> simp [mset, mget, hp, hp', Ne.symm h, ih]

theorem mget_mdel_self (m : List (String × α)) (k : String) :
    mget (mdel m k) k = none := by
  induction m with
  | nil => simp [mdel, mget]
  | cons p rest ih =>
    by_cases h : p.1 = k <;> simp [mdel, mget, h, ih]

theorem mget_mdel_ne (m : List (String × α)) (k k' : String) (h : k ≠ k') :
    mget (mdel m k) k' = mget m k' := by
  induction m with
  | nil => simp [mdel, mget]
  | cons p rest ih =>
    by_cases hp : p.1 = k
    · simp [mdel, mget, hp, h, ih]
    · by_cases hp' : p.1 = k' <;> simp [mdel, mget, hp, hp', Ne.symm h, ih]

theorem mhas_mset (m : List (String × α)) (k k' : String) (v : α) :
    mhas (mset m k v) k' = (decide (k = k') || mhas m k') := by
  by_cases h : k = k'
  · subst h; simp [mhas, mget_mset_self]
  · simp [mhas, mget_mset_ne m k k' v h, h]

theorem mhas_mdel (m : List (String × α)) (k k' : String) :
    mhas (mdel m k) k' = (decide (k ≠ k') && mhas m k') := by
  by_cases h : k = k'
  · subst h; simp [mhas, mget_mdel_self]
  · simp [mhas, mget_mdel_ne m k k' h, h]

theorem mem_of_mget_eq_some {m : List (String × α)} {k : String} {v : α}
    (h : mget m k = some v) : (k, v) ∈ m := by
  induction m with
  | nil => simp [mget] at h
  | cons p rest ih =>
    obtain ⟨a, b⟩ := p
    by_cases hp : a = k
    · simp [mget, hp] at h
      subst hp
      subst h
      exact List.mem_cons_self _ _
    · simp [mget, hp] at h
      exact List.mem_cons_of_mem _ (ih h)

theorem all_mset_of {m : List (String × α)} {P : String × α → Bool}
    (hm : m.all P = true) {k : String} {v : α} (hv : P (k, v) = true) :
    (mset m k v).all P = true := by
  induction m with
  | nil => simp [mset, hv]
  | cons p rest ih =>
    simp only [List.all_cons, Bool.and_eq_true] at hm
    by_cases hp : p.1 = k <;>
      simp [mset, hp, hv, hm.1, hm.2, ih hm.2]

theorem all_mdel_of {m : List (String × α)} {P : String × α → Bool}
    (hm : m.all P = true) (k : String) : (mdel m k).all P = true := by
  induction m with
  | nil => simp [mdel]
  | cons p rest ih =>
    simp only [List.all_cons, Bool.and_eq_true] at hm
    by_cases hp : p.1 = k <;> simp [mdel, hp, hm.1, ih hm.2]

theorem all_of_mem {m : List (String × α)} {P : String × α → Bool}
    (hm : m.all P = true) {x : String × α} (hx : x ∈ m) : P x = true :=
  List.all_eq_true.mp hm x hx

/-- String trimming (JS `String.prototype.trim`): drop leading and
trailing whitespace. -/
def strTrim (s : String) : String :=
  ⟨((s.data.dropWhile Char.isWhitespace).reverse.dropWhile
      Char.isWhitespace).reverse⟩

/-- Truncation to the first `n` characters (JS `slice(0, n)`). -/
def strTake (s : String) (n : Nat) : String :=
  ⟨s.data.take n⟩

/-- Participant record stored in `members` / `pending`. -/
structure PData where
  userName : String
deriving DecidableEq

/-- Per-participant telemetry record (`room.intel` entry). -/
structure IntelEntry where
  latest : Snapshot
  history : List Snapshot
  lastSampleTime : ℤ
deriving DecidableEq

/-- The record the server stores on member creation:
`latest_emotion_data: [], emotion_history: [], last_history_sample_time: 0`. -/
def freshIntel : IntelEntry :=
  { latest := [], history := [], lastSampleTime := 0 }

/-- A meeting room as stored in the global `rooms` map. -/
structure Room where
  creatorId : SessionId
  password : Option String
  scheduledAt : Option ℤ
  expiryMinutes : ℤ
  waitingRoom : Bool
  members : List (SessionId × PData)
  pending : List (SessionId × PData)
  expiryTimer : Option ℤ
  intel : List (SessionId × IntelEntry)
deriving DecidableEq

/-- Per-connection fields the server stamps on the socket object
(`socket.roomId`, `socket.userName`, `socket.isHost`) plus the socket.io
rooms the connection has joined. -/
structure SockState where
  roomId : Option RoomId := none
  userName : String := ""
  isHost : Bool := false
  joined : List RoomId := []
deriving DecidableEq

instance : Inhabited SockState := ⟨{}⟩

/-- Whole coordinator state: the `rooms` registry and the live connections. -/
structure Server where
  rooms : List (RoomId × Room)
  sockets : List (SessionId × SockState)
deriving DecidableEq

def emptyServer : Server := { rooms := [], sockets := [] }

/-- One row of the creator-only telemetry dashboard. -/
structure DashEntry where
  participantId : SessionId
  name : String
  current : Snapshot
  history : List Snapshot
deriving DecidableEq

/-- Events the coordinator emits towards clients. -/
inductive Ev where
  | errorMsg (msg : String)
  | roomJoined (roomId : RoomId) (participants : List (SessionId × String))
      (isHost : Bool) (myId : SessionId)
  | meetingNotStarted (scheduledAt : ℤ)
  | wrongPassword
  | waitingForHost
  | pendingJoin (id : SessionId) (userName : String)
  | admittedEv (roomId : RoomId) (participants : List (SessionId × String))
      (myId : SessionId)
  | participantJoined (id : SessionId) (userName : String)
  | rejectedEv
  | offerEv (fromId : SessionId) (payload : Int)
  | answerEv (fromId : SessionId) (payload : Int)
  | iceCandidateEv (fromId : SessionId) (payload : Int)
  | muteAudio
  | muteAudioRequest
  | kickedEv
  | participantLeft (id : SessionId)
  | meetingEnded
  | spotlightChanged (target : Option SessionId)
  | intelDashboard (participants : List DashEntry)
  | pendingLeft (id : SessionId)
deriving DecidableEq

/-- Addressing of an emission: `io.to(sessionId)` / `socket.emit` target a
single connection, `io.to(roomId)` / `io.in(roomId)` a whole meeting room,
`socket.to(roomId)` a room minus the sender. -/
inductive Target where
  | session (sid : SessionId)
  | roomAll (rid : RoomId)
  | roomExcept (rid : RoomId) (excluded : SessionId)
deriving DecidableEq

structure Emit where
  target : Target
  event : Ev
deriving DecidableEq

/-- Resolve one emission against the live connections: a session target is
delivered iff that connection still exists; a room target reaches every
connection that has joined the socket.io room. -/
def deliverEmit (s : Server) (e : Emit) : List (SessionId × Ev) :=
  match e.target with
  | .session t => if mhas s.sockets t then [(t, e.event)] else []
  | .roomAll rid =>
      (s.sockets.filter (fun p => p.2.joined.contains rid)).map
        (fun p => (p.1, e.event))
  | .roomExcept rid ex =>
      (s.sockets.filter (fun p => p.2.joined.contains rid && p.1 != ex)).map
        (fun p => (p.1, e.event))

def deliverAll (s : Server) (es : List Emit) : List (SessionId × Ev) :=
  (es.map (deliverEmit s)).flatten

def DEFAULT_EXPIRY_MINUTES : ℤ := 30

/-- Linear scan for the first room whose `members` contains the socket
(server helper `getRoomBySocket`). -/
def getRoomBySocket (rooms : List (RoomId × Room)) (sid : SessionId) :
    Option (RoomId × Room) :=
  rooms.find? (fun p => mhas p.2.members sid)

/-- Roster derived from `members` (server helper `getRoomParticipants`). -/
def getRoomParticipants (room : Room) : List (SessionId × String) :=
  room.members.map (fun p => (p.1, p.2.userName))

/-- Server helper `isHost`: the socket is in some room and is its creator. -/
def isHostFn (rooms : List (RoomId × Room)) (sid : SessionId) : Bool :=
  match getRoomBySocket rooms sid with
  | some (_, room) => room.creatorId == sid
  | none => false

/-- Server helper `clearExpiryTimer`. -/
def clearExpiryTimerR (room : Room) : Room :=
  { room with expiryTimer := none }

/-- Server helper `scheduleRoomExpiry`: clears any previous timer and, when
`expiryMinutes` is positive, arms one deadline `expiryMinutes` minutes from
now; the actual deletion is the separate `fireExpiry` transition. -/
def scheduleRoomExpiryR (room : Room) (now : ℤ) : Room :=
  let minutes := room.expiryMinutes
  if minutes ≤ 0 then { room with expiryTimer := none }
  else { room with expiryTimer := some (now + minutes * 60 * 1000) }

/-- The `setTimeout` callback `rooms.delete(roomId)` firing: it only runs if
the timer is still armed and its deadline has passed. -/
def fireExpiry (s : Server) (roomId : RoomId) (now : ℤ) : Server :=
  match mget s.rooms roomId with
  | some room =>
    match room.expiryTimer with
    | some deadline =>
      if deadline ≤ now then { s with rooms := mdel s.rooms roomId } else s
    | none => s
  | none => s

/-- The schedule gate `scheduledAt && Date.now() < scheduledAt` (a stored
instant of `0` is falsy in JavaScript, hence the `t ≠ 0` conjunct). -/
def schedGate (sch : Option ℤ) (now : ℤ) : Option ℤ :=
  match sch with
  | some t => if t ≠ 0 ∧ now < t then some t else none
  | none => none

/-- Room options supplied with a creator-intent join
(`payload.roomOptions`); `scheduledAt` is the already-converted instant
with `none` standing for an absent or falsy value. -/
structure RoomOptions where
  password : Option String := none
  scheduledAt : Option ℤ := none
  expiryMinutes : Option ℤ := none
  waitingRoom : Bool := false
deriving DecidableEq

/-- Third argument of the `join-room` event. -/
structure JoinPayload where
  isCreator : Bool := false
  roomOptions : Option RoomOptions := none
  password : Option String := none
deriving DecidableEq

/-- Socket.io `socket.join(rid)`: idempotent room membership. -/
def joinSockRoom (joined : List RoomId) (rid : RoomId) : List RoomId :=
  if joined.contains rid then joined else joined ++ [rid]

/-- The `join-room` handler, translated branch by branch from the server:
validation, the creation branch (with its early `meeting-not-started`
return), and for an existing room the timer clear followed by the
password, schedule and waiting-room gates. -/
def joinRoom (s : Server) (sid : SessionId) (now : ℤ) (roomId : RoomId)
    (userName : String) (payload : JoinPayload) : Server × List Emit :=
  if roomId = "" ∨ strTrim userName = "" then
    (s, [⟨.session sid, .errorMsg "Room ID and name required"⟩])
  else
    let name := strTake (strTrim userName) 50
    match mget s.rooms roomId with
    | none =>
      match payload.isCreator, payload.roomOptions with
      | true, some opts =>
        match schedGate opts.scheduledAt now with
        | some t => (s, [⟨.session sid, .meetingNotStarted t⟩])
        | none =>
          let room : Room :=
            { creatorId := sid
              password :=
                match opts.password with
                | some pw => if strTrim pw = "" then none else some (strTrim pw)
                | none => none
              scheduledAt := opts.scheduledAt
              expiryMinutes := opts.expiryMinutes.getD DEFAULT_EXPIRY_MINUTES
              waitingRoom := opts.waitingRoom
              members := [(sid, ⟨name⟩)]
              pending := []
              expiryTimer := none
              intel := [(sid, freshIntel)] }
          let sock := (mget s.sockets sid).getD {}
          let sock := { sock with
            roomId := some roomId, userName := name, isHost := true,
            joined := joinSockRoom sock.joined roomId }
          ({ rooms := mset s.rooms roomId room,
             sockets := mset s.sockets sid sock },
           [⟨.session sid, .roomJoined roomId (getRoomParticipants room) true sid⟩])
      | _, _ => (s, [⟨.session sid, .errorMsg "Room not found"⟩])
    | some room0 =>
      let room := clearExpiryTimerR room0
      let pwFail : Bool :=
        match room.password with
        | some p => p != "" && p != strTrim (payload.password.getD "")
        | none => false
      if pwFail then
        ({ s with rooms := mset s.rooms roomId room },
         [⟨.session sid, .wrongPassword⟩])
      else
        match schedGate room.scheduledAt now with
        | some t =>
          ({ s with rooms := mset s.rooms roomId room },
           [⟨.session sid, .meetingNotStarted t⟩])
        | none =>
          if room.waitingRoom && sid != room.creatorId then
            let room2 := { room with pending := mset room.pending sid ⟨name⟩ }
            let sock := (mget s.sockets sid).getD {}
            let sock := { sock with
              roomId := some roomId, userName := name, isHost := false }
            ({ rooms := mset s.rooms roomId room2,
               sockets := mset s.sockets sid sock },
             [⟨.session sid, .waitingForHost⟩,
              ⟨.session room.creatorId, .pendingJoin sid name⟩])
          else
            let room2 := { room with
              members := mset room.members sid ⟨name⟩,
              intel := mset room.intel sid freshIntel }
            let sock := (mget s.sockets sid).getD {}
            let sock := { sock with
              roomId := some roomId, userName := name,
              isHost := sid == room.creatorId,
              joined := joinSockRoom sock.joined roomId }
            ({ rooms := mset s.rooms roomId room2,
               sockets := mset s.sockets sid sock },
             [⟨.session sid,
                .roomJoined roomId (getRoomParticipants room2)
                  (sid == room.creatorId) sid⟩,
              ⟨.roomExcept roomId sid, .participantJoined sid name⟩])

/-- The `admit` handler: the creator moves a pending entry into `members`,
resets its telemetry record, and (when the peer connection is still live)
notifies the peer and the rest of the room. -/
def admitH (s : Server) (sid peerId : SessionId) : Server × List Emit :=
  match getRoomBySocket s.rooms sid with
  | none => (s, [])
  | some (roomId, room) =>
    if room.creatorId != sid then (s, [])
    else
      match mget room.pending peerId with
      | none => (s, [])
      | some pendingData =>
        let room2 := { room with
          pending := mdel room.pending peerId,
          members := mset room.members peerId pendingData,
          intel := mset room.intel peerId freshIntel }
        let rooms2 := mset s.rooms roomId room2
        match mget s.sockets peerId with
        | some psock =>
          let psock2 := { psock with
            roomId := some roomId, userName := pendingData.userName,
            isHost := false, joined := joinSockRoom psock.joined roomId }
          ({ rooms := rooms2, sockets := mset s.sockets peerId psock2 },
           [⟨.session peerId,
              .admittedEv roomId (getRoomParticipants room2) peerId⟩,
            ⟨.roomExcept roomId sid,
              .participantJoined peerId pendingData.userName⟩])
        | none => ({ rooms := rooms2, sockets := s.sockets }, [])

/-- The `reject` handler: the creator drops a pending entry. -/
def rejectH (s : Server) (sid peerId : SessionId) : Server × List Emit :=
  match getRoomBySocket s.rooms sid with
  | none => (s, [])
  | some (roomId, room) =>
    if room.creatorId != sid then (s, [])
    else
      let room2 := { room with pending := mdel room.pending peerId }
      ({ s with rooms := mset s.rooms roomId room2 },
       [⟨.session peerId, .rejectedEv⟩])

/-- The `kick` handler: host-gated removal of a target from `members` and
`pending`; the target connection (if still in the room) is evicted and the
room notified.  The handler never touches the expiry timer or the registry
entry itself. -/
def kickH (s : Server) (sid targetId : SessionId) : Server × List Emit :=
  match getRoomBySocket s.rooms sid with
  | none => (s, [])
  | some (roomId, room) =>
    if room.creatorId != sid then (s, [])
    else
      let room2 := { room with
        members := mdel room.members targetId,
        pending := mdel room.pending targetId }
      let rooms2 := mset s.rooms roomId room2
      match mget s.sockets targetId with
      | some psock =>
        if psock.roomId = some roomId then
          let psock2 := { psock with
            roomId := none
            joined := psock.joined.filter (fun r => r != roomId) }
          ({ rooms := rooms2, sockets := mset s.sockets targetId psock2 },
           [⟨.session targetId, .kickedEv⟩,
            ⟨.roomAll roomId, .participantLeft targetId⟩])
        else ({ rooms := rooms2, sockets := s.sockets }, [])
      | none => ({ rooms := rooms2, sockets := s.sockets }, [])

/-- The `end-meeting` handler: host-gated terminal broadcast followed by
registry deletion. -/
def endMeetingH (s : Server) (sid : SessionId) : Server × List Emit :=
  match getRoomBySocket s.rooms sid with
  | none => (s, [])
  | some (roomId, room) =>
    if roomId = "" ∨ room.creatorId ≠ sid then (s, [])
    else
      ({ s with rooms := mdel s.rooms roomId },
       [⟨.roomAll roomId, .meetingEnded⟩])

/-- The `mute-all` handler (host-gated broadcast, no state change). -/
def muteAllH (s : Server) (sid : SessionId) : Server × List Emit :=
  match getRoomBySocket s.rooms sid with
  | none => (s, [])
  | some (roomId, room) =>
    if roomId = "" ∨ room.creatorId ≠ sid then (s, [])
    else (s, [⟨.roomExcept roomId sid, .muteAudio⟩])

/-- The `mute-peer` handler (host-gated targeted request, no state change). -/
def mutePeerH (s : Server) (sid targetId : SessionId) : Server × List Emit :=
  match getRoomBySocket s.rooms sid with
  | none => (s, [])
  | some (_, room) =>
    if room.creatorId ≠ sid then (s, [])
    else (s, [⟨.session targetId, .muteAudioRequest⟩])

/-- The `spotlight` handler (host-gated broadcast of `peerId || null`). -/
def spotlightH (s : Server) (sid : SessionId) (peerId : Option SessionId) :
    Server × List Emit :=
  match getRoomBySocket s.rooms sid with
  | none => (s, [])
  | some (roomId, room) =>
    if roomId = "" ∨ room.creatorId ≠ sid then (s, [])
    else
      (s, [⟨.roomAll roomId,
        .spotlightChanged (if peerId = some "" then none else peerId)⟩])

/-- The `offer` relay: unconditionally address the target session with the
sender id and the untouched payload; no state change, no reply to sender. -/
def offerH (s : Server) (sid targetId : SessionId) (sdp : Int) :
    Server × List Emit :=
  (s, [⟨.session targetId, .offerEv sid sdp⟩])

/-- The `answer` relay (same shape as `offer`). -/
def answerH (s : Server) (sid targetId : SessionId) (sdp : Int) :
    Server × List Emit :=
  (s, [⟨.session targetId, .answerEv sid sdp⟩])

/-- The `ice-candidate` relay (same shape as `offer`). -/
def iceCandidateH (s : Server) (sid targetId : SessionId) (cand : Int) :
    Server × List Emit :=
  (s, [⟨.session targetId, .iceCandidateEv sid cand⟩])

def INTEL_HISTORY_SAMPLE_INTERVAL_MS : ℤ := 1000
def INTEL_MAX_HISTORY_LENGTH : Nat := 24 * 60 * 60

/-- Core of the `intel-metrics` handler on one telemetry record: always
overwrite `latest`; append to `history` only when at least one second
(`INTEL_HISTORY_SAMPLE_INTERVAL_MS` milliseconds, since times are kept in
exact milliseconds rather than the source's fractional seconds) has
elapsed since the last appended sample, dropping the oldest entry when the
cap is exceeded. -/
def updateIntel (entry : IntelEntry) (nowMs : ℤ) (data : Snapshot) :
    IntelEntry :=
  let e1 := { entry with latest := data }
  if INTEL_HISTORY_SAMPLE_INTERVAL_MS ≤ nowMs - e1.lastSampleTime then
    let h := e1.history ++ [data]
    let h := if INTEL_MAX_HISTORY_LENGTH < h.length then h.tail else h
    { e1 with history := h, lastSampleTime := nowMs }
  else e1

/-- The dashboard rows built over every entry of `room.intel`: session id,
resolved display name (falling back to the first eight characters of the
session id), current snapshot and history. -/
def dashRows (room2 : Room) : List DashEntry :=
  room2.intel.map (fun p =>
    { participantId := p.1,
      name :=
        match mget room2.members p.1 with
        | some m => m.userName
        | none => strTake p.1 8,
      current := p.2.latest,
      history := p.2.history })

/-- The `intel-metrics` handler: update the sender's telemetry record and
emit the combined dashboard to the creator's connection only.  A payload
that is not an array is coerced to `[]` (`Array.isArray` guard). -/
def intelMetricsH (s : Server) (sid : SessionId) (nowMs : ℤ)
    (payload : Option Snapshot) : Server × List Emit :=
  match getRoomBySocket s.rooms sid with
  | none => (s, [])
  | some (roomId, room) =>
    if roomId = "" then (s, [])
    else
      let data := payload.getD []
      let entry := (mget room.intel sid).getD freshIntel
      let entry2 := updateIntel entry nowMs data
      let room2 := { room with intel := mset room.intel sid entry2 }
      let s2 := { s with rooms := mset s.rooms roomId room2 }
      if room.creatorId = "" then (s2, [])
      else
        (s2, [⟨.session room.creatorId, .intelDashboard (dashRows room2)⟩])

/-- The `disconnect` handler: the connection disappears; if it had resolved
a room, it is removed from `members`, `pending` and `intel`, and when the
room has become fully empty the expiry scheduler runs (immediate deletion
when no timer could be armed). -/
def disconnectH (s : Server) (sid : SessionId) (now : ℤ) :
    Server × List Emit :=
  let sock := mget s.sockets sid
  let s0 := { s with sockets := mdel s.sockets sid }
  match sock with
  | none => (s0, [])
  | some sk =>
    match sk.roomId with
    | none => (s0, [])
    | some roomId =>
      if roomId = "" then (s0, [])
      else
        match mget s0.rooms roomId with
        | none => (s0, [])
        | some room =>
          let wasPending := mhas room.pending sid
          let room2 := { room with
            members := mdel room.members sid,
            pending := mdel room.pending sid,
            intel := mdel room.intel sid }
          let e1 : List Emit :=
            if wasPending && room.creatorId != "" then
              [⟨.session room.creatorId, .pendingLeft sid⟩]
            else []
          if room2.members.isEmpty && room2.pending.isEmpty then
            let room3 := scheduleRoomExpiryR room2 now
            if room3.expiryTimer = none then
              ({ s0 with rooms := mdel s0.rooms roomId }, e1)
            else ({ s0 with rooms := mset s0.rooms roomId room3 }, e1)
          else
            ({ s0 with rooms := mset s0.rooms roomId room2 },
             e1 ++ [⟨.roomAll roomId, .participantLeft sid⟩])

/-- The membership-changing client events (join, admit, reject, kick,
disconnect), each tagged with the sender session and, where the handler
reads the clock, the current time. -/
inductive CEvent where
  | joinE (sid : SessionId) (now : ℤ) (roomId : RoomId) (userName : String)
      (payload : JoinPayload)
  | admitE (sid peerId : SessionId)
  | rejectE (sid peerId : SessionId)
  | kickE (sid targetId : SessionId)
  | disconnectE (sid : SessionId) (now : ℤ)

/-- One event-loop step (emissions discarded). -/
def stepS (s : Server) : CEvent → Server
  | .joinE sid now roomId userName payload =>
      (joinRoom s sid now roomId userName payload).1
  | .admitE sid peerId => (admitH s sid peerId).1
  | .rejectE sid peerId => (rejectH s sid peerId).1
  | .kickE sid targetId => (kickH s sid targetId).1
  | .disconnectE sid now => (disconnectH s sid now).1

def runS (s : Server) : List CEvent → Server
  | [] => s
  | e :: rest => runS (stepS s e) rest

/-- Restriction under which the disjointness invariant is provable: a join
is never issued by a session that is already a member of the room it
targets (any other event is unrestricted). -/
def stepOK (s : Server) : CEvent → Bool
  | .joinE sid _ roomId _ _ =>
      match mget s.rooms roomId with
      | some room => ! mhas room.members sid
      | none => true
  | _ => true

def goodRun (s : Server) : List CEvent → Bool
  | [] => true
  | e :: rest => stepOK s e && goodRun (stepS s e) rest

/-- Decidable check that a room's `members` and `pending` key sets are
disjoint. -/
def pairwiseDisjointOK (room : Room) : Bool :=
  room.members.all (fun p => ! mhas room.pending p.1)

/-- Disjointness across every room of the registry. -/
def roomsDisjointOK (s : Server) : Bool :=
  s.rooms.all (fun p => pairwiseDisjointOK p.2)

/-- Inductive invariant: disjointness, `pending` empty unless the waiting
room is enabled, and the creator never pending. -/
def roomInvB (room : Room) : Bool :=
  pairwiseDisjointOK room &&
  (room.waitingRoom || room.pending.isEmpty) &&
  ! mhas room.pending room.creatorId

def serverInvB (s : Server) : Bool :=
  s.rooms.all (fun p => roomInvB p.2)

theorem mhas_of_mem {m : List (String × α)} {k : String} {v : α}
    (h : (k, v) ∈ m) : mhas m k = true := by
  induction m with
  | nil => simp at h
  | cons p rest ih =>
    rcases List.mem_cons.mp h with h1 | h2
    · cases h1.symm
      simp [mhas, mget]
    · by_cases hp : p.1 = k
      · simp [mhas, mget, hp]
      · simpa [mhas, mget, hp] using ih h2

theorem mem_mset {m : List (String × α)} {k : String} {v : α}
    {x : String × α} (h : x ∈ mset m k v) : x = (k, v) ∨ x ∈ m := by
  induction m with
  | nil => simp [mset] at h; simp [h]
  | cons p rest ih =>
    by_cases hp : p.1 = k
    · simp [mset, hp] at h
      rcases h with h | h
      · simp [h]
      · simp [h]
    · simp [mset, hp] at h
      rcases h with h | h
      · simp [h]
      · rcases ih h with h' | h'
        · simp [h']
        · simp [h']

theorem mem_mdel {m : List (String × α)} {k : String}
    {x : String × α} (h : x ∈ mdel m k) : x ∈ m := by
  induction m with
  | nil => simp [mdel] at h
  | cons p rest ih =>
    by_cases hp : p.1 = k
    · simp [mdel, hp] at h
      exact List.mem_cons_of_mem _ (ih h)
    · simp [mdel, hp] at h
      rcases h with h | h
      · simp [h]
      · exact List.mem_cons_of_mem _ (ih h)

theorem mdel_nil_of_eq_nil {m : List (String × α)} (h : m = []) (k : String) :
    mdel m k = [] := by
  subst h; rfl

/-- Proposition-level per-room invariant: members and pending are disjoint,
pending is empty unless the waiting room is enabled, and the creator is
never pending. -/
def RoomInv (room : Room) : Prop :=
  (∀ k, mhas room.members k = true → mhas room.pending k = false) ∧
  (room.waitingRoom = false → room.pending = []) ∧
  mhas room.pending room.creatorId = false

def RoomsInv (rooms : List (RoomId × Room)) : Prop :=
  ∀ rid room, (rid, room) ∈ rooms → RoomInv room

def ServerInv (s : Server) : Prop := RoomsInv s.rooms

theorem roomsInv_mset {rooms : List (RoomId × Room)} {rid : RoomId}
    {room2 : Room} (h : RoomsInv rooms) (h2 : RoomInv room2) :
    RoomsInv (mset rooms rid room2) := by
  intro rid' room' hmem
  rcases mem_mset hmem with he | hm
  · cases he
    exact h2
  · exact h rid' room' hm

theorem roomsInv_mdel {rooms : List (RoomId × Room)} {rid : RoomId}
    (h : RoomsInv rooms) : RoomsInv (mdel rooms rid) :=
  fun rid' room' hmem => h rid' room' (mem_mdel hmem)

theorem roomInv_of_mget {rooms : List (RoomId × Room)} {rid : RoomId}
    {room : Room} (h : RoomsInv rooms) (hg : mget rooms rid = some room) :
    RoomInv room :=
  h rid room (mem_of_mget_eq_some hg)

theorem roomInv_of_find {rooms : List (RoomId × Room)} {rid : RoomId}
    {room : Room} (h : RoomsInv rooms)
    (hg : getRoomBySocket rooms sid = some (rid, room)) : RoomInv room :=
  h rid room (List.mem_of_find?_eq_some hg)

theorem roomInv_clear {room : Room} (h : RoomInv room) :
    RoomInv (clearExpiryTimerR room) := h

theorem roomInv_schedule {room : Room} (h : RoomInv room) (now : ℤ) :
    RoomInv (scheduleRoomExpiryR room now) := by
  by_cases hm : room.expiryMinutes ≤ 0 <;>
    simp only [scheduleRoomExpiryR, hm, if_true, if_false, reduceIte] <;>
    exact h

/-- A fresh pending insertion by a session that is not yet a member and is
not the creator preserves the invariant. -/
theorem roomInv_addPending {room : Room} {sid : SessionId} {x : PData}
    (h : RoomInv room) (hsid : mhas room.members sid = false)
    (hwr : room.waitingRoom = true) (hc : sid ≠ room.creatorId) :
    RoomInv { room with pending := mset room.pending sid x } := by
  obtain ⟨hdisj, _, hcr⟩ := h
  refine ⟨?_, ?_, ?_⟩
  · intro k hk
    simp only at hk ⊢
    rw [mhas_mset]
    have hks : ¬ sid = k := by
      intro he
      rw [he] at hsid
      rw [hk] at hsid
      exact Bool.false_ne_true hsid.symm
    simp [hks, hdisj k hk]
  · intro hw
    simp only at hw
    rw [hwr] at hw
    exact absurd hw (by simp)
  · simp only
    rw [mhas_mset]
    simp [hc, hcr]

/-- A member insertion when the waiting-room gate did not apply preserves
the invariant. -/
theorem roomInv_addMember {room : Room} {sid : SessionId} {x : PData}
    {intel2 : List (SessionId × IntelEntry)} (h : RoomInv room)
    (hgate : room.waitingRoom = false ∨ sid = room.creatorId) :
    RoomInv { room with members := mset room.members sid x, intel := intel2 } := by
  obtain ⟨hdisj, hwr, hcr⟩ := h
  refine ⟨?_, hwr, hcr⟩
  intro k hk
  simp only at hk ⊢
  rw [mhas_mset] at hk
  rcases Bool.or_eq_true _ _ |>.mp hk with hk1 | hk2
  · have hks : sid = k := by simpa using hk1
    subst hks
    rcases hgate with hw | hcid
    · rw [hwr hw]
      rfl
    · rw [← hcid] at hcr
      exact hcr
  · exact hdisj k hk2

/-- Moving a pending entry to members (the admit path) preserves the
invariant. -/
theorem roomInv_admitMove {room : Room} {peerId : SessionId} {pd : PData}
    {intel2 : List (SessionId × IntelEntry)} (h : RoomInv room) :
    RoomInv { room with pending := mdel room.pending peerId, members := mset room.members peerId pd, intel := intel2 } := by
  obtain ⟨hdisj, hwr, hcr⟩ := h
  refine ⟨?_, ?_, ?_⟩
  · intro k hk
    simp only at hk ⊢
    rw [mhas_mset] at hk
    rw [mhas_mdel]
    rcases Bool.or_eq_true _ _ |>.mp hk with hk1 | hk2
    · have hks : peerId = k := by simpa using hk1
      simp [hks]
    · simp [hdisj k hk2]
  · intro hw
    simp only at hw ⊢
    exact mdel_nil_of_eq_nil (hwr hw) peerId
  · simp only
    rw [mhas_mdel]
    simp [hcr]

/-- Deleting a session from both collections preserves the invariant. -/
theorem roomInv_deleteBoth {room : Room} {tid : SessionId}
    {intel2 : List (SessionId × IntelEntry)} (h : RoomInv room) :
    RoomInv { room with members := mdel room.members tid, pending := mdel room.pending tid, intel := intel2 } := by
  obtain ⟨hdisj, hwr, hcr⟩ := h
  refine ⟨?_, ?_, ?_⟩
  · intro k hk
    simp only at hk ⊢
    rw [mhas_mdel] at hk
    rw [mhas_mdel]
    rcases Bool.and_eq_true _ _ |>.mp hk with ⟨_, hk2⟩
    simp [hdisj k hk2]
  · intro hw
    simp only at hw ⊢
    exact mdel_nil_of_eq_nil (hwr hw) tid
  · simp only
    rw [mhas_mdel]
    simp [hcr]

/-- Deleting a pending entry alone (the reject path) preserves the
invariant. -/
theorem roomInv_deletePending {room : Room} {peerId : SessionId}
    (h : RoomInv room) :
    RoomInv { room with pending := mdel room.pending peerId } := by
  obtain ⟨hdisj, hwr, hcr⟩ := h
  refine ⟨?_, ?_, ?_⟩
  · intro k hk
    simp only at hk ⊢
    rw [mhas_mdel]
    simp [hdisj k hk]
  · intro hw
    simp only at hw ⊢
    exact mdel_nil_of_eq_nil (hwr hw) peerId
  · simp only
    rw [mhas_mdel]
    simp [hcr]

theorem roomInv_freshRoom (sid : SessionId) (name : String) (pw : Option String)
    (sch : Option ℤ) (em : ℤ) (wr : Bool) :
    RoomInv { creatorId := sid, password := pw, scheduledAt := sch,
              expiryMinutes := em, waitingRoom := wr,
              members := [(sid, ⟨name⟩)], pending := [], expiryTimer := none,
              intel := [(sid, freshIntel)] } :=
  ⟨fun _ _ => rfl, fun _ => rfl, rfl⟩

theorem serverInv_joinRoom (s : Server) (sid : SessionId) (now : ℤ)
    (roomId : RoomId) (userName : String) (payload : JoinPayload)
    (hs : ServerInv s)
    (hok : stepOK s (.joinE sid now roomId userName payload) = true) :
    ServerInv (joinRoom s sid now roomId userName payload).1 := by
  have hok' : (match mget s.rooms roomId with
      | some room => ! mhas room.members sid
      | none => true) = true := hok
  unfold joinRoom
  split
  · exact hs
  · cases hroom : mget s.rooms roomId with
    | none =>
      cases payload.isCreator with
      | false => cases payload.roomOptions <;> exact hs
      | true =>
        cases payload.roomOptions with
        | none => exact hs
        | some opts =>
          try dsimp only
          split
          · exact hs
          · exact roomsInv_mset hs (roomInv_freshRoom _ _ _ _ _ _)
    | some room0 =>
      rw [hroom] at hok'
      have hsidmem : mhas room0.members sid = false := by
        simpa using hok'
      have h0 : RoomInv room0 := roomInv_of_mget hs hroom
      have h1 : RoomInv (clearExpiryTimerR room0) := roomInv_clear h0
      dsimp only
      split
      · exact roomsInv_mset hs h1
      · cases hg : schedGate (clearExpiryTimerR room0).scheduledAt now with
        | some t =>
          try rw [hg]
          exact roomsInv_mset hs h1
        | none =>
          try rw [hg]
          dsimp only
          split
          · rename_i hgate
            have hwr : (clearExpiryTimerR room0).waitingRoom = true :=
              (Bool.and_eq_true _ _ |>.mp hgate).1
            have hne : sid ≠ (clearExpiryTimerR room0).creatorId := by
              have := (Bool.and_eq_true _ _ |>.mp hgate).2
              simpa using this
            exact roomsInv_mset hs (roomInv_addPending h1 hsidmem hwr hne)
          · rename_i hgate
            have hgate' : (clearExpiryTimerR room0).waitingRoom = false ∨
                sid = (clearExpiryTimerR room0).creatorId := by
              have h := Bool.not_eq_true _ |>.mp hgate
              rcases Bool.and_eq_false_iff.mp h with h' | h'
              · exact Or.inl h'
              · right
                simpa using h'
            exact roomsInv_mset hs (roomInv_addMember h1 hgate')

theorem serverInv_admitH (s : Server) (sid peerId : SessionId)
    (hs : ServerInv s) : ServerInv (admitH s sid peerId).1 := by
  unfold admitH
  cases hfind : getRoomBySocket s.rooms sid with
  | none => exact hs
  | some pr =>
    obtain ⟨roomId, room⟩ := pr
    dsimp only
    split
    · exact hs
    · cases mget room.pending peerId with
      | none => exact hs
      | some pendingData =>
        have h0 : RoomInv room := roomInv_of_find hs hfind
        dsimp only
        cases mget s.sockets peerId <;>
          exact roomsInv_mset hs (roomInv_admitMove h0)

theorem serverInv_rejectH (s : Server) (sid peerId : SessionId)
    (hs : ServerInv s) : ServerInv (rejectH s sid peerId).1 := by
  unfold rejectH
  cases hfind : getRoomBySocket s.rooms sid with
  | none => exact hs
  | some pr =>
    obtain ⟨roomId, room⟩ := pr
    dsimp only
    split
    · exact hs
    · exact roomsInv_mset hs (roomInv_deletePending (roomInv_of_find hs hfind))

theorem serverInv_kickH (s : Server) (sid targetId : SessionId)
    (hs : ServerInv s) : ServerInv (kickH s sid targetId).1 := by
  unfold kickH
  cases hfind : getRoomBySocket s.rooms sid with
  | none => exact hs
  | some pr =>
    obtain ⟨roomId, room⟩ := pr
    dsimp only
    split
    · exact hs
    · have h0 : RoomInv room := roomInv_of_find hs hfind
      cases mget s.sockets targetId with
      | none => exact roomsInv_mset hs (roomInv_deleteBoth h0)
      | some psock =>
        dsimp only
        split <;> exact roomsInv_mset hs (roomInv_deleteBoth h0)

theorem serverInv_disconnectH (s : Server) (sid : SessionId) (now : ℤ)
    (hs : ServerInv s) : ServerInv (disconnectH s sid now).1 := by
  unfold disconnectH
  cases mget s.sockets sid with
  | none => exact hs
  | some sk =>
    dsimp only
    cases sk.roomId with
    | none => exact hs
    | some roomId =>
      dsimp only
      split
      · exact hs
      · cases hroom : mget s.rooms roomId with
        | none => exact hs
        | some room =>
          have h0 : RoomInv room := roomInv_of_mget hs hroom
          have h2 : RoomInv { room with members := mdel room.members sid, pending := mdel room.pending sid, intel := mdel room.intel sid } :=
            roomInv_deleteBoth h0
          dsimp only
          split
          · split
            · exact roomsInv_mdel hs
            · exact roomsInv_mset hs (roomInv_schedule h2 now)
          · exact roomsInv_mset hs h2

theorem serverInv_stepS (s : Server) (e : CEvent) (hs : ServerInv s)
    (hok : stepOK s e = true) : ServerInv (stepS s e) := by
  cases e with
  | joinE sid now roomId userName payload =>
    exact serverInv_joinRoom s sid now roomId userName payload hs hok
  | admitE sid peerId => exact serverInv_admitH s sid peerId hs
  | rejectE sid peerId => exact serverInv_rejectH s sid peerId hs
  | kickE sid targetId => exact serverInv_kickH s sid targetId hs
  | disconnectE sid now => exact serverInv_disconnectH s sid now hs

theorem serverInv_runS (s : Server) (tr : List CEvent) (hs : ServerInv s)
    (h : goodRun s tr = true) : ServerInv (runS s tr) := by
  induction tr generalizing s with
  | nil => exact hs
  | cons e rest ih =>
    simp only [goodRun, Bool.and_eq_true] at h
    exact ih (stepS s e) (serverInv_stepS s e hs h.1) h.2

theorem roomsDisjointOK_of_inv {s : Server} (hs : ServerInv s) :
    roomsDisjointOK s = true := by
  simp only [roomsDisjointOK, pairwiseDisjointOK, List.all_eq_true]
  intro pr hpr q hq
  obtain ⟨rid, room⟩ := pr
  obtain ⟨k, v⟩ := q
  have hinv := hs rid room hpr
  have hx := hinv.1 k (mhas_of_mem hq)
  simp [hx]

end ShunyaCode

namespace ShunyaCode

/-- Concrete trace: a creator opens a waiting-room-enabled room, a second
session joins into `pending`, and the creator admits it. -/
def traceHostAdmit : List CEvent :=
  [ .joinE "h" 0 "r" "host"
      { isCreator := true, roomOptions := some { waitingRoom := true } },
    .joinE "s" 0 "r" "sam" {},
    .admitE "h" "s" ]

/-- The same trace followed by the admitted member re-issuing a join to the
same waiting-room-enabled room. -/
def traceRejoinAfterAdmit : List CEvent :=
  traceHostAdmit ++ [ .joinE "s" 0 "r" "sam" {} ]

/-- C1 counterexample: disjointness of `members` and `pending` fails on the
code as claimed — after create, join, admit, the admitted member re-issues
`join-room` to the waiting-room-enabled room and is inserted into `pending`
while still present in `members`. -/
theorem members_pending_disjoint_counterexample :
    roomsDisjointOK (runS emptyServer traceRejoinAfterAdmit) = false := by
  decide

/-- C1 (amended): starting from the empty coordinator state, after any
sequence of join, admit, reject, kick and disconnect events in which no
join is issued by a session that is already a member of the room it
targets, the key sets of `members` and `pending` are disjoint in every
room of the registry. -/
theorem members_pending_disjoint_of_goodRun (tr : List CEvent)
    (h : goodRun emptyServer tr = true) :
    roomsDisjointOK (runS emptyServer tr) = true :=
  roomsDisjointOK_of_inv
    (serverInv_runS emptyServer tr (fun _ _ hm => by cases hm) h)

/-- C1 witness: the amended disjointness theorem applied to the concrete
create/join/admit trace. -/
theorem members_pending_disjoint_witness :
    goodRun emptyServer traceHostAdmit = true ∧
    roomsDisjointOK (runS emptyServer traceHostAdmit) = true :=
  ⟨by decide, members_pending_disjoint_of_goodRun traceHostAdmit (by decide)⟩

end ShunyaCode

namespace ShunyaCode

/-- The password gate of the join handler, exactly as the server computes
it: a stored, non-empty password that differs from the trimmed supplied
one fails. -/
def pwFailB (room : Room) (pl : JoinPayload) : Bool :=
  match room.password with
  | some p => p != "" && p != strTrim (pl.password.getD "")
  | none => false

theorem joinRoom_validation_ok (s : Server) (sid : SessionId) (now : ℤ)
    (rid : RoomId) (nm : String) (pl : JoinPayload)
    (hval : ¬(rid = "" ∨ strTrim nm = "")) :
    joinRoom s sid now rid nm pl =
      (let name := strTake (strTrim nm) 50
       match mget s.rooms rid with
       | none =>
         match pl.isCreator, pl.roomOptions with
         | true, some opts =>
           match schedGate opts.scheduledAt now with
           | some t => (s, [⟨.session sid, .meetingNotStarted t⟩])
           | none =>
             let room : Room :=
               { creatorId := sid
                 password :=
                   match opts.password with
                   | some pw => if strTrim pw = "" then none else some (strTrim pw)
                   | none => none
                 scheduledAt := opts.scheduledAt
                 expiryMinutes := opts.expiryMinutes.getD DEFAULT_EXPIRY_MINUTES
                 waitingRoom := opts.waitingRoom
                 members := [(sid, ⟨name⟩)]
                 pending := []
                 expiryTimer := none
                 intel := [(sid, freshIntel)] }
             let sock := (mget s.sockets sid).getD {}
             let sock := { sock with
               roomId := some rid, userName := name, isHost := true,
               joined := joinSockRoom sock.joined rid }
             ({ rooms := mset s.rooms rid room,
                sockets := mset s.sockets sid sock },
              [⟨.session sid, .roomJoined rid (getRoomParticipants room) true sid⟩])
         | _, _ => (s, [⟨.session sid, .errorMsg "Room not found"⟩])
       | some room0 =>
         let room := clearExpiryTimerR room0
         if pwFailB room pl then
           ({ s with rooms := mset s.rooms rid room },
            [⟨.session sid, .wrongPassword⟩])
         else
           match schedGate room.scheduledAt now with
           | some t =>
             ({ s with rooms := mset s.rooms rid room },
              [⟨.session sid, .meetingNotStarted t⟩])
           | none =>
             if room.waitingRoom && sid != room.creatorId then
               let room2 := { room with pending := mset room.pending sid ⟨name⟩ }
               let sock := (mget s.sockets sid).getD {}
               let sock := { sock with
                 roomId := some rid, userName := name, isHost := false }
               ({ rooms := mset s.rooms rid room2,
                  sockets := mset s.sockets sid sock },
                [⟨.session sid, .waitingForHost⟩,
                 ⟨.session room.creatorId, .pendingJoin sid name⟩])
             else
               let room2 := { room with
                 members := mset room.members sid ⟨name⟩,
                 intel := mset room.intel sid freshIntel }
               let sock := (mget s.sockets sid).getD {}
               let sock := { sock with
                 roomId := some rid, userName := name,
                 isHost := sid == room.creatorId,
                 joined := joinSockRoom sock.joined rid }
               ({ rooms := mset s.rooms rid room2,
                  sockets := mset s.sockets sid sock },
                [⟨.session sid,
                   .roomJoined rid (getRoomParticipants room2)
                     (sid == room.creatorId) sid⟩,
                 ⟨.roomExcept rid sid, .participantJoined sid name⟩])) := by
  unfold joinRoom pwFailB
  rw [if_neg hval]

end ShunyaCode

namespace ShunyaCode

theorem clearExpiry_password (room : Room) :
    (clearExpiryTimerR room).password = room.password := rfl

theorem clearExpiry_scheduledAt (room : Room) :
    (clearExpiryTimerR room).scheduledAt = room.scheduledAt := rfl

theorem clearExpiry_waitingRoom (room : Room) :
    (clearExpiryTimerR room).waitingRoom = room.waitingRoom := rfl

theorem clearExpiry_creatorId (room : Room) :
    (clearExpiryTimerR room).creatorId = room.creatorId := rfl

theorem clearExpiry_members (room : Room) :
    (clearExpiryTimerR room).members = room.members := rfl

theorem clearExpiry_pending (room : Room) :
    (clearExpiryTimerR room).pending = room.pending := rfl

theorem clearExpiry_intel (room : Room) :
    (clearExpiryTimerR room).intel = room.intel := rfl

theorem pwFailB_clearExpiry (room : Room) (pl : JoinPayload) :
    pwFailB (clearExpiryTimerR room) pl = pwFailB room pl := rfl

/-- Join to an existing room, wrong-password outcome: the only state change
is the cleared expiry timer, and the only emission is the dedicated
`wrong-password` signal to the requester. -/
theorem joinRoom_wrongPassword (s : Server) (sid : SessionId) (now : ℤ)
    (rid : RoomId) (nm : String) (pl : JoinPayload) (room : Room)
    (hval : ¬(rid = "" ∨ strTrim nm = ""))
    (hroom : mget s.rooms rid = some room)
    (hpw : pwFailB room pl = true) :
    joinRoom s sid now rid nm pl =
      ({ s with rooms := mset s.rooms rid (clearExpiryTimerR room) },
       [⟨.session sid, .wrongPassword⟩]) := by
  rw [joinRoom_validation_ok s sid now rid nm pl hval]
  simp only [hroom, pwFailB_clearExpiry, hpw, if_true]

/-- Join to an existing room, password passed but schedule gate closed:
the only state change is the cleared timer, and the requester gets the
retryable `meeting-not-started` signal. -/
theorem joinRoom_notStarted (s : Server) (sid : SessionId) (now : ℤ)
    (rid : RoomId) (nm : String) (pl : JoinPayload) (room : Room) (t : ℤ)
    (hval : ¬(rid = "" ∨ strTrim nm = ""))
    (hroom : mget s.rooms rid = some room)
    (hpw : pwFailB room pl = false)
    (hsch : schedGate room.scheduledAt now = some t) :
    joinRoom s sid now rid nm pl =
      ({ s with rooms := mset s.rooms rid (clearExpiryTimerR room) },
       [⟨.session sid, .meetingNotStarted t⟩]) := by
  rw [joinRoom_validation_ok s sid now rid nm pl hval]
  simp only [hroom, pwFailB_clearExpiry, hpw, Bool.false_eq_true, if_false,
    clearExpiry_scheduledAt, hsch]

/-- Join to an existing room through all gates into the waiting room. -/
theorem joinRoom_toPending (s : Server) (sid : SessionId) (now : ℤ)
    (rid : RoomId) (nm : String) (pl : JoinPayload) (room : Room)
    (hval : ¬(rid = "" ∨ strTrim nm = ""))
    (hroom : mget s.rooms rid = some room)
    (hpw : pwFailB room pl = false)
    (hsch : schedGate room.scheduledAt now = none)
    (hgate : (room.waitingRoom && sid != room.creatorId) = true) :
    joinRoom s sid now rid nm pl =
      ({ rooms := mset s.rooms rid
           { clearExpiryTimerR room with
             pending := mset room.pending sid ⟨strTake (strTrim nm) 50⟩ },
         sockets := mset s.sockets sid
           { (mget s.sockets sid).getD {} with
             roomId := some rid, userName := strTake (strTrim nm) 50,
             isHost := false } },
       [⟨.session sid, .waitingForHost⟩,
        ⟨.session room.creatorId, .pendingJoin sid (strTake (strTrim nm) 50)⟩]) := by
  rw [joinRoom_validation_ok s sid now rid nm pl hval]
  simp only [hroom, pwFailB_clearExpiry, hpw, Bool.false_eq_true, if_false,
    clearExpiry_scheduledAt, hsch, clearExpiry_waitingRoom,
    clearExpiry_creatorId, clearExpiry_pending, hgate, if_true]

/-- Join to an existing room through all gates into `members`, resetting
the telemetry record. -/
theorem joinRoom_toMember (s : Server) (sid : SessionId) (now : ℤ)
    (rid : RoomId) (nm : String) (pl : JoinPayload) (room : Room)
    (hval : ¬(rid = "" ∨ strTrim nm = ""))
    (hroom : mget s.rooms rid = some room)
    (hpw : pwFailB room pl = false)
    (hsch : schedGate room.scheduledAt now = none)
    (hgate : (room.waitingRoom && sid != room.creatorId) = false) :
    joinRoom s sid now rid nm pl =
      (let room2 := { clearExpiryTimerR room with
         members := mset room.members sid ⟨strTake (strTrim nm) 50⟩,
         intel := mset room.intel sid freshIntel }
       ({ rooms := mset s.rooms rid room2,
          sockets := mset s.sockets sid
            { (mget s.sockets sid).getD {} with
              roomId := some rid, userName := strTake (strTrim nm) 50,
              isHost := sid == room.creatorId,
              joined := joinSockRoom ((mget s.sockets sid).getD {}).joined rid } },
        [⟨.session sid,
           .roomJoined rid (getRoomParticipants room2) (sid == room.creatorId) sid⟩,
         ⟨.roomExcept rid sid, .participantJoined sid (strTake (strTrim nm) 50)⟩])) := by
  rw [joinRoom_validation_ok s sid now rid nm pl hval]
  simp only [hroom, pwFailB_clearExpiry, hpw, Bool.false_eq_true, if_false,
    clearExpiry_scheduledAt, hsch, clearExpiry_waitingRoom,
    clearExpiry_creatorId, clearExpiry_members, clearExpiry_intel, hgate]

/-- Creation branch with the schedule gate closed: the handler returns
before `rooms.set`, so no room is created and the creator only receives
the `meeting-not-started` signal. -/
theorem joinRoom_createNotStarted (s : Server) (sid : SessionId) (now : ℤ)
    (rid : RoomId) (nm : String) (opts : RoomOptions) (pw : Option String)
    (t : ℤ) (hval : ¬(rid = "" ∨ strTrim nm = ""))
    (hroom : mget s.rooms rid = none)
    (hsch : schedGate opts.scheduledAt now = some t) :
    joinRoom s sid now rid nm
      { isCreator := true, roomOptions := some opts, password := pw } =
      (s, [⟨.session sid, .meetingNotStarted t⟩]) := by
  rw [joinRoom_validation_ok s sid now rid nm _ hval]
  simp only [hroom, hsch]

/-- Creation branch with the schedule gate open: the room is inserted into
the registry with the trimmed password, the creator as sole member, a
fresh telemetry record and no expiry timer. -/
theorem joinRoom_createOk (s : Server) (sid : SessionId) (now : ℤ)
    (rid : RoomId) (nm : String) (opts : RoomOptions) (pw : Option String)
    (hval : ¬(rid = "" ∨ strTrim nm = ""))
    (hroom : mget s.rooms rid = none)
    (hsch : schedGate opts.scheduledAt now = none) :
    joinRoom s sid now rid nm
      { isCreator := true, roomOptions := some opts, password := pw } =
      (let name := strTake (strTrim nm) 50
       let room : Room :=
         { creatorId := sid
           password :=
             match opts.password with
             | some pw' => if strTrim pw' = "" then none else some (strTrim pw')
             | none => none
           scheduledAt := opts.scheduledAt
           expiryMinutes := opts.expiryMinutes.getD DEFAULT_EXPIRY_MINUTES
           waitingRoom := opts.waitingRoom
           members := [(sid, ⟨name⟩)]
           pending := []
           expiryTimer := none
           intel := [(sid, freshIntel)] }
       ({ rooms := mset s.rooms rid room,
          sockets := mset s.sockets sid
            { (mget s.sockets sid).getD {} with
              roomId := some rid, userName := name, isHost := true,
              joined := joinSockRoom ((mget s.sockets sid).getD {}).joined rid } },
        [⟨.session sid, .roomJoined rid (getRoomParticipants room) true sid⟩])) := by
  rw [joinRoom_validation_ok s sid now rid nm _ hval]
  simp only [hroom, hsch]

end ShunyaCode

namespace ShunyaCode

/-- C5: for a join to an existing room whose stored password is non-empty,
the password gate runs first: a mismatch against the trimmed supplied
password (regardless of the schedule) yields exactly the dedicated
`wrong-password` signal and leaves `members` and `pending` unchanged; only
with a matching password is the schedule checked, yielding the retryable
`meeting-not-started` signal; and the stored password itself is the
trimmed creation-time password, so the comparison trims both sides. -/
theorem join_password_first_then_schedule (s : Server) (sid : SessionId)
    (now : ℤ) (rid : RoomId) (nm : String) (pl : JoinPayload) (room : Room)
    (p : String) (hval : ¬(rid = "" ∨ strTrim nm = ""))
    (hroom : mget s.rooms rid = some room)
    (hpw : room.password = some p) (hp : p ≠ "") :
    (p ≠ strTrim (pl.password.getD "") →
      joinRoom s sid now rid nm pl =
        ({ s with rooms := mset s.rooms rid (clearExpiryTimerR room) },
         [⟨.session sid, .wrongPassword⟩]) ∧
      (mget (joinRoom s sid now rid nm pl).1.rooms rid).map Room.members =
        some room.members ∧
      (mget (joinRoom s sid now rid nm pl).1.rooms rid).map Room.pending =
        some room.pending) ∧
    (∀ t, p = strTrim (pl.password.getD "") → room.scheduledAt = some t →
      t ≠ 0 → now < t →
      joinRoom s sid now rid nm pl =
        ({ s with rooms := mset s.rooms rid (clearExpiryTimerR room) },
         [⟨.session sid, .meetingNotStarted t⟩])) ∧
    (∀ (s2 : Server) (sid2 : SessionId) (now2 : ℤ) (rid2 : RoomId)
       (nm2 : String) (opts : RoomOptions) (rawp : String)
       (jpw : Option String),
      ¬(rid2 = "" ∨ strTrim nm2 = "") → mget s2.rooms rid2 = none →
      schedGate opts.scheduledAt now2 = none →
      opts.password = some rawp → strTrim rawp ≠ "" →
      (mget (joinRoom s2 sid2 now2 rid2 nm2
          { isCreator := true, roomOptions := some opts,
            password := jpw }).1.rooms rid2).map Room.password =
        some (some (strTrim rawp))) := by
  refine ⟨?_, ?_, ?_⟩
  · intro hmis
    have hfail : pwFailB room pl = true := by
      simp [pwFailB, hpw, hp, hmis]
    have heq := joinRoom_wrongPassword s sid now rid nm pl room hval hroom hfail
    refine ⟨heq, ?_, ?_⟩ <;>
      simp [heq, mget_mset_self, clearExpiry_members, clearExpiry_pending]
  · intro t hmatch hsch ht0 hlt
    have hok : pwFailB room pl = false := by
      simp [pwFailB, hpw, hmatch]
    have hg : schedGate room.scheduledAt now = some t := by
      simp [schedGate, hsch, ht0, hlt]
    exact joinRoom_notStarted s sid now rid nm pl room t hval hroom hok hg
  · intro s2 sid2 now2 rid2 nm2 opts rawp jpw hval2 hroom2 hsch2 hrawp hne
    rw [joinRoom_createOk s2 sid2 now2 rid2 nm2 opts jpw hval2 hroom2 hsch2]
    simp [mget_mset_self, hrawp, hne]

/-- Fixture for the password-gate scenario: room `r3` with stored password
`abc` and a future schedule. -/
def r3room : Room where
  creatorId := "h"
  password := some "abc"
  scheduledAt := some 100
  expiryMinutes := 30
  waitingRoom := false
  members := [("h", ⟨"host"⟩)]
  pending := []
  expiryTimer := none
  intel := [("h", freshIntel)]

def r3server : Server := { rooms := [("r3", r3room)], sockets := [] }

/-- C5 witness: on room `r3` (password `abc`, future schedule), a join with
password `xyz` is rejected with `wrong-password`, while a join with
`" abc "` (trimmed) passes the password gate and receives
`meeting-not-started`. -/
theorem join_password_first_witness :
    (joinRoom r3server "s" 0 "r3" "sam" { password := some "xyz" }).2 =
      [⟨.session "s", .wrongPassword⟩] ∧
    (joinRoom r3server "s" 0 "r3" "sam" { password := some " abc " }).2 =
      [⟨.session "s", .meetingNotStarted 100⟩] := by
  have h1 := (join_password_first_then_schedule r3server "s" 0 "r3" "sam"
    { password := some "xyz" } r3room "abc"
    (by decide) (by decide) rfl (by decide)).1 (by decide)
  have h2 := (join_password_first_then_schedule r3server "s" 0 "r3" "sam"
    { password := some " abc " } r3room "abc"
    (by decide) (by decide) rfl (by decide)).2.1 100 (by decide) rfl
    (by decide) (by decide)
  exact ⟨by rw [h1.1], by rw [h2]⟩

end ShunyaCode

namespace ShunyaCode

/-- C10: every join that targets an existing room clears that room's
expiry timer before the gates run — whatever the outcome, the room is
still registered and carries no timer — and when the join is rejected by
the password or schedule gate, `members`, `pending` and the telemetry map
are left exactly as they were, with no timer restarted in the same step. -/
theorem join_clears_timer_rejection_frame (s : Server) (sid : SessionId)
    (now : ℤ) (rid : RoomId) (nm : String) (pl : JoinPayload) (room : Room)
    (hval : ¬(rid = "" ∨ strTrim nm = ""))
    (hroom : mget s.rooms rid = some room) :
    ((mget (joinRoom s sid now rid nm pl).1.rooms rid).map Room.expiryTimer =
      some none) ∧
    (pwFailB room pl = true →
      joinRoom s sid now rid nm pl =
        ({ s with rooms := mset s.rooms rid (clearExpiryTimerR room) },
         [⟨.session sid, .wrongPassword⟩])) ∧
    (∀ t, pwFailB room pl = false →
      schedGate room.scheduledAt now = some t →
      joinRoom s sid now rid nm pl =
        ({ s with rooms := mset s.rooms rid (clearExpiryTimerR room) },
         [⟨.session sid, .meetingNotStarted t⟩])) := by
  refine ⟨?_, ?_, ?_⟩
  · cases hpw : pwFailB room pl with
    | true =>
      rw [joinRoom_wrongPassword s sid now rid nm pl room hval hroom hpw]
      simp [mget_mset_self, clearExpiryTimerR]
    | false =>
      cases hsch : schedGate room.scheduledAt now with
      | some t =>
        rw [joinRoom_notStarted s sid now rid nm pl room t hval hroom hpw hsch]
        simp [mget_mset_self, clearExpiryTimerR]
      | none =>
        cases hgate : (room.waitingRoom && sid != room.creatorId) with
        | true =>
          rw [joinRoom_toPending s sid now rid nm pl room hval hroom hpw
            hsch hgate]
          simp [mget_mset_self, clearExpiryTimerR]
        | false =>
          rw [joinRoom_toMember s sid now rid nm pl room hval hroom hpw
            hsch hgate]
          simp [mget_mset_self, clearExpiryTimerR]
  · intro hpw
    exact joinRoom_wrongPassword s sid now rid nm pl room hval hroom hpw
  · intro t hpw hsch
    exact joinRoom_notStarted s sid now rid nm pl room t hval hroom hpw hsch

/-- Fixture for the timer-clearing scenario: an empty room with an armed
expiry timer and a wrong-password join attempt. -/
def timeredRoom : Room where
  creatorId := "h"
  password := some "abc"
  scheduledAt := none
  expiryMinutes := 30
  waitingRoom := false
  members := []
  pending := []
  expiryTimer := some 1800000
  intel := []

def timeredServer : Server := { rooms := [("r", timeredRoom)], sockets := [] }

/-- C10 witness: a rejected join against an empty room with an armed timer
leaves the room registered, empty, unchanged and timerless. -/
theorem join_clears_timer_witness :
    ((mget (joinRoom timeredServer "s" 0 "r" "sam"
        { password := some "zzz" }).1.rooms "r").map Room.expiryTimer =
      some none) ∧
    joinRoom timeredServer "s" 0 "r" "sam" { password := some "zzz" } =
      ({ timeredServer with
         rooms := mset timeredServer.rooms "r" (clearExpiryTimerR timeredRoom) },
       [⟨.session "s", .wrongPassword⟩]) := by
  have h := join_clears_timer_rejection_frame timeredServer "s" 0 "r" "sam"
    { password := some "zzz" } timeredRoom (by decide) (by decide)
  exact ⟨h.1, h.2.1 (by decide)⟩

/-- C3 counterexample: a creator-intent join for a not-yet-existing room
with a future `scheduledAt` does not create the room — the handler
returns `meeting-not-started` before `rooms.set`, so the registry is
unchanged and the room is absent, contradicting the claim that the
creation still succeeds. -/
theorem create_future_schedule_counterexample :
    (joinRoom emptyServer "c" 0 "r" "creator"
        { isCreator := true, roomOptions := some { scheduledAt := some 100 } }) =
      (emptyServer, [⟨.session "c", .meetingNotStarted 100⟩]) ∧
    mhas (joinRoom emptyServer "c" 0 "r" "creator"
        { isCreator := true,
          roomOptions := some { scheduledAt := some 100 } }).1.rooms "r" =
      false := by
  exact ⟨by decide, by decide⟩

/-- C3 (amended): for a creator-intent join for a not-yet-existing room
whose `scheduledAt` lies in the future, the creation does not succeed —
the state is unchanged and the room absent — and the creator receives the
`meeting-not-started` signal carrying the scheduled instant; a retry at or
after that instant creates the room. -/
theorem create_future_schedule_fails (s : Server) (sid : SessionId)
    (now : ℤ) (rid : RoomId) (nm : String) (opts : RoomOptions)
    (jpw : Option String) (t : ℤ)
    (hval : ¬(rid = "" ∨ strTrim nm = ""))
    (hroom : mget s.rooms rid = none)
    (hsch : opts.scheduledAt = some t) (ht0 : t ≠ 0) (hlt : now < t) :
    joinRoom s sid now rid nm
      { isCreator := true, roomOptions := some opts, password := jpw } =
      (s, [⟨.session sid, .meetingNotStarted t⟩]) ∧
    (∀ now2, t ≤ now2 →
      mhas (joinRoom s sid now2 rid nm
        { isCreator := true, roomOptions := some opts,
          password := jpw }).1.rooms rid = true) := by
  constructor
  · exact joinRoom_createNotStarted s sid now rid nm opts jpw t hval hroom
      (by simp [schedGate, hsch, ht0, hlt])
  · intro now2 hge
    have hsch2 : schedGate opts.scheduledAt now2 = none := by
      simp [schedGate, hsch]
      intro _
      omega
    rw [joinRoom_createOk s sid now2 rid nm opts jpw hval hroom hsch2]
    simp [mhas_mset]

/-- C3 witness: the amended theorem at a concrete input — the room is
absent after the early attempt and present after the retry at the
scheduled instant. -/
theorem create_future_schedule_witness :
    joinRoom emptyServer "c" 0 "r" "creator"
      { isCreator := true, roomOptions := some { scheduledAt := some 100 } } =
      (emptyServer, [⟨.session "c", .meetingNotStarted 100⟩]) ∧
    mhas (joinRoom emptyServer "c" 100 "r" "creator"
      { isCreator := true,
        roomOptions := some { scheduledAt := some 100 } }).1.rooms "r" =
      true := by
  have h := create_future_schedule_fails emptyServer "c" 0 "r" "creator"
    { scheduledAt := some 100 } none 100
    (by decide) (by decide) rfl (by decide) (by decide)
  exact ⟨h.1, h.2 100 (by decide)⟩

end ShunyaCode

namespace ShunyaCode

/-- Fixture for the telemetry-reset scenario: creator `h` is a member of
room `r` and has accumulated telemetry history. -/
def intelRoom : Room where
  creatorId := "h"
  password := none
  scheduledAt := none
  expiryMinutes := 30
  waitingRoom := false
  members := [("h", ⟨"host"⟩)]
  pending := []
  expiryTimer := none
  intel := [("h", { latest := [7], history := [[1], [2]], lastSampleTime := 5000 })]

def intelServer : Server := { rooms := [("r", intelRoom)], sockets := [] }

/-- C4 counterexample: re-adding an existing member is not history
preserving — before the repeated join the member's telemetry history is
non-empty, afterwards the stored record is the fresh one with an empty
history, so the accumulated `history` is lost, contradicting the claim. -/
theorem readd_member_keeps_history_counterexample :
    ((mget intelServer.rooms "r").bind
      (fun rm => mget rm.intel "h")).map IntelEntry.history = some [[1], [2]] ∧
    ((mget (joinRoom intelServer "h" 10000 "r" "host" {}).1.rooms "r").bind
      (fun rm => mget rm.intel "h")).map IntelEntry.history = some [] := by
  exact ⟨by decide, by decide⟩

/-- C4 (amended): a repeated join of a session that reaches the member
branch replaces that session's telemetry record wholesale with the fresh
record — `latest` re-initialized empty, `history` cleared (the
accumulated history is lost), and the last sample time reset to zero. -/
theorem readd_member_resets_intel (s : Server) (sid : SessionId) (now : ℤ)
    (rid : RoomId) (nm : String) (pl : JoinPayload) (room : Room)
    (hval : ¬(rid = "" ∨ strTrim nm = ""))
    (hroom : mget s.rooms rid = some room)
    (hpw : pwFailB room pl = false)
    (hsch : schedGate room.scheduledAt now = none)
    (hgate : (room.waitingRoom && sid != room.creatorId) = false) :
    (mget (joinRoom s sid now rid nm pl).1.rooms rid).bind
      (fun rm => mget rm.intel sid) = some freshIntel := by
  rw [joinRoom_toMember s sid now rid nm pl room hval hroom hpw hsch hgate]
  simp [mget_mset_self]

/-- C4 witness: the amended reset theorem applied to the concrete fixture
with accumulated history. -/
theorem readd_member_resets_intel_witness :
    (mget (joinRoom intelServer "h" 10000 "r" "host" {}).1.rooms "r").bind
      (fun rm => mget rm.intel "h") = some freshIntel :=
  readd_member_resets_intel intelServer "h" 10000 "r" "host" {} intelRoom
    (by decide) (by decide) (by decide) (by decide) (by decide)

end ShunyaCode

namespace ShunyaCode

/-- C6: a privileged command (mute-all, mute-one, kick, end-meeting,
set-spotlight) issued by a session that is not the creator of the room it
resolves to is a complete no-op: the state — registry entry, members,
pending, telemetry, expiry timer — is untouched and nothing at all is
emitted, so no error reaches the issuer. -/
theorem nonhost_commands_are_noops (s : Server) (sid targetId : SessionId)
    (peerId : Option SessionId) (h : isHostFn s.rooms sid = false) :
    muteAllH s sid = (s, []) ∧ mutePeerH s sid targetId = (s, []) ∧
    kickH s sid targetId = (s, []) ∧ endMeetingH s sid = (s, []) ∧
    spotlightH s sid peerId = (s, []) := by
  unfold isHostFn at h
  cases hfind : getRoomBySocket s.rooms sid with
  | none => simp [muteAllH, mutePeerH, kickH, endMeetingH, spotlightH, hfind]
  | some pr =>
    obtain ⟨rid, room⟩ := pr
    rw [hfind] at h
    have hne : room.creatorId ≠ sid := by simpa using h
    simp [muteAllH, mutePeerH, kickH, endMeetingH, spotlightH, hfind, hne]

/-- Fixture: a two-member room whose second member `x` is not the host. -/
def twoMemberRoom : Room where
  creatorId := "h"
  password := none
  scheduledAt := none
  expiryMinutes := 30
  waitingRoom := false
  members := [("h", ⟨"host"⟩), ("x", ⟨"xena"⟩)]
  pending := []
  expiryTimer := none
  intel := [("h", freshIntel), ("x", freshIntel)]

def twoMemberServer : Server :=
  { rooms := [("r", twoMemberRoom)],
    sockets :=
      [("h", { roomId := some "r", userName := "host", isHost := true,
               joined := ["r"] }),
       ("x", { roomId := some "r", userName := "xena", isHost := false,
               joined := ["r"] })] }

/-- C6 witness: every privileged command issued by the non-host member of
the concrete two-member room changes nothing and emits nothing. -/
theorem nonhost_commands_witness :
    muteAllH twoMemberServer "x" = (twoMemberServer, []) ∧
    mutePeerH twoMemberServer "x" "h" = (twoMemberServer, []) ∧
    kickH twoMemberServer "x" "h" = (twoMemberServer, []) ∧
    endMeetingH twoMemberServer "x" = (twoMemberServer, []) ∧
    spotlightH twoMemberServer "x" (some "h") = (twoMemberServer, []) :=
  nonhost_commands_are_noops twoMemberServer "x" "h" (some "h") (by decide)

/-- C7: each of the three relay handlers leaves the state untouched and
addresses exactly one emission at the target session carrying the sender
id and the unmodified payload; resolved against the live connections it is
delivered exactly to the target when that connection exists and to nobody
otherwise, with nothing ever sent back to the sender. -/
theorem relay_forward_or_silent_drop (s : Server)
    (sid targetId : SessionId) (payload : Int) :
    (offerH s sid targetId payload).1 = s ∧
    (answerH s sid targetId payload).1 = s ∧
    (iceCandidateH s sid targetId payload).1 = s ∧
    deliverAll s (offerH s sid targetId payload).2 =
      (if mhas s.sockets targetId = true
       then [(targetId, Ev.offerEv sid payload)] else []) ∧
    deliverAll s (answerH s sid targetId payload).2 =
      (if mhas s.sockets targetId = true
       then [(targetId, Ev.answerEv sid payload)] else []) ∧
    deliverAll s (iceCandidateH s sid targetId payload).2 =
      (if mhas s.sockets targetId = true
       then [(targetId, Ev.iceCandidateEv sid payload)] else []) := by
  cases h : mhas s.sockets targetId <;>
    simp [offerH, answerH, iceCandidateH, deliverAll, deliverEmit, h]

end ShunyaCode

namespace ShunyaCode

theorem mget_eq_of_mem_nodup {m : List (String × α)}
    (hnd : (m.map Prod.fst).Nodup) {k : String} {v : α}
    (h : (k, v) ∈ m) : mget m k = some v := by
  induction m with
  | nil => simp at h
  | cons p rest ih =>
    simp only [List.map_cons, List.nodup_cons] at hnd
    rcases List.mem_cons.mp h with h1 | h2
    · cases h1.symm
      simp [mget]
    · have hk : p.1 ≠ k := by
        intro he
        exact hnd.1 (he ▸ List.mem_map_of_mem Prod.fst h2)
      simp [mget, hk, ih hnd.2 h2]

/-- A cleared or not-yet-due timer never deletes the room: firing is a
no-op strictly before the armed deadline and always a no-op when no timer
is armed. -/
theorem fireExpiry_noop (s : Server) (rid : RoomId) (t : ℤ) (room : Room)
    (hroom : mget s.rooms rid = some room) :
    (∀ d, room.expiryTimer = some d → t < d → fireExpiry s rid t = s) ∧
    (room.expiryTimer = none → fireExpiry s rid t = s) := by
  constructor
  · intro d hd hlt
    unfold fireExpiry
    rw [hroom]
    dsimp only
    rw [hd]
    simp [not_le.mpr hlt]
  · intro hd
    unfold fireExpiry
    rw [hroom]
    dsimp only
    rw [hd]

/-- Whatever its outcome, a join to an existing room stores that room back
with no expiry timer. -/
theorem joinRoom_timer_none (s : Server) (sid : SessionId) (now : ℤ)
    (rid : RoomId) (nm : String) (pl : JoinPayload) (room : Room)
    (hval : ¬(rid = "" ∨ strTrim nm = ""))
    (hroom : mget s.rooms rid = some room) :
    (mget (joinRoom s sid now rid nm pl).1.rooms rid).map Room.expiryTimer =
      some none := by
  cases hpw : pwFailB room pl with
  | true =>
    rw [joinRoom_wrongPassword s sid now rid nm pl room hval hroom hpw]
    simp [mget_mset_self, clearExpiryTimerR]
  | false =>
    cases hsch : schedGate room.scheduledAt now with
    | some t =>
      rw [joinRoom_notStarted s sid now rid nm pl room t hval hroom hpw hsch]
      simp [mget_mset_self, clearExpiryTimerR]
    | none =>
      cases hgate : (room.waitingRoom && sid != room.creatorId) with
      | true =>
        rw [joinRoom_toPending s sid now rid nm pl room hval hroom hpw
          hsch hgate]
        simp [mget_mset_self, clearExpiryTimerR]
      | false =>
        rw [joinRoom_toMember s sid now rid nm pl room hval hroom hpw
          hsch hgate]
        simp [mget_mset_self, clearExpiryTimerR]

end ShunyaCode

namespace ShunyaCode

/-- The kick handler never deletes a registry entry and never touches any
room's expiry timer, whichever room and target are involved. -/
theorem kickH_timer_frame (s : Server) (sid tid : SessionId) (rid' : RoomId)
    (hnd : (s.rooms.map Prod.fst).Nodup) :
    (mget (kickH s sid tid).1.rooms rid').map Room.expiryTimer =
      (mget s.rooms rid').map Room.expiryTimer := by
  unfold kickH
  cases hfind : getRoomBySocket s.rooms sid with
  | none => rfl
  | some pr =>
    obtain ⟨rid, room⟩ := pr
    dsimp only
    by_cases hc : (room.creatorId != sid) = true
    · rw [if_pos hc]
    · rw [if_neg hc]
      have hg : mget s.rooms rid = some room :=
        mget_eq_of_mem_nodup hnd (List.mem_of_find?_eq_some hfind)
      have key : ∀ (rooms2 : List (RoomId × Room)),
          rooms2 = mset s.rooms rid { room with members := mdel room.members tid, pending := mdel room.pending tid } →
          (mget rooms2 rid').map Room.expiryTimer =
            (mget s.rooms rid').map Room.expiryTimer := by
        intro rooms2 hx
        rw [hx]
        by_cases he : rid = rid'
        · subst he
          rw [mget_mset_self, hg]
          rfl
        · rw [mget_mset_ne s.rooms rid rid' _ he]
      cases mget s.sockets tid with
      | none => exact key _ rfl
      | some psock =>
        dsimp only
        by_cases hp : psock.roomId = some rid
        · rw [if_pos hp]
          exact key _ rfl
        · rw [if_neg hp]
          exact key _ rfl

/-- The disconnect handler on the last occupant of a room: with
non-positive `expiryMinutes` the room is deleted in the same step, with
positive `expiryMinutes` it stays registered carrying a single timer due
exactly `expiryMinutes` minutes from now. -/
theorem disconnectH_empty_schedules (s : Server) (sid : SessionId)
    (now : ℤ) (rid : RoomId) (room : Room) (sk : SockState)
    (hsock : mget s.sockets sid = some sk)
    (hrid : sk.roomId = some rid) (hne : rid ≠ "")
    (hroom : mget s.rooms rid = some room)
    (hmem : mdel room.members sid = [])
    (hpend : mdel room.pending sid = []) :
    (room.expiryMinutes ≤ 0 →
      mget (disconnectH s sid now).1.rooms rid = none) ∧
    (0 < room.expiryMinutes →
      mget (disconnectH s sid now).1.rooms rid =
        some { room with members := [], pending := [], intel := mdel room.intel sid, expiryTimer := some (now + room.expiryMinutes * 60 * 1000) }) := by
  unfold disconnectH
  simp only [hsock]
  simp only [hrid]
  rw [if_neg hne]
  simp only [hroom]
  simp only [hmem, hpend, List.isEmpty_nil, Bool.and_self, if_true]
  constructor
  · intro hk
    simp only [scheduleRoomExpiryR, hmem, hpend, if_pos hk]
    simp [mget_mdel_self]
  · intro hk
    simp only [scheduleRoomExpiryR, hmem, hpend, if_neg (not_le.mpr hk)]
    simp [mget_mset_self]

end ShunyaCode

namespace ShunyaCode

/-- Fixture: a room whose only member is the host, with immediate expiry
configured (`expiryMinutes = 0`). -/
def soloHostRoom : Room where
  creatorId := "h"
  password := none
  scheduledAt := none
  expiryMinutes := 0
  waitingRoom := false
  members := [("h", ⟨"host"⟩)]
  pending := []
  expiryTimer := none
  intel := [("h", freshIntel)]

/-- Fixture: the host's connection record for room `r`. -/
def hostSock : SockState where
  roomId := some "r"
  userName := "host"
  isHost := true
  joined := ["r"]

def soloHostServer : Server :=
  { rooms := [("r", soloHostRoom)], sockets := [("h", hostSock)] }

/-- C2 counterexample: a kick that empties the room (the host kicking
itself) triggers no scheduler reaction — although the room is now empty
and `expiryMinutes = 0`, it is neither deleted in the same step nor given
a timer, contradicting the claim for the kick event. -/
theorem kick_emptiness_counterexample :
    (mget (kickH soloHostServer "h" "h").1.rooms "r").map
        (fun r => (r.members.isEmpty, r.pending.isEmpty,
          r.expiryMinutes, r.expiryTimer)) =
      some (true, true, 0, none) := by
  decide

/-- C2 (amended): only the disconnect handler reacts to a room becoming
empty.  The kick handler never deletes a registry entry or touches a
timer (so a self-kick that empties a room leaves it registered with no
timer); a disconnect that empties a room deletes it at once when
`expiryMinutes ≤ 0` and otherwise stores it with a single timer due
`expiryMinutes` minutes later, before which firing is a no-op; a cleared
timer never fires; and any join to a surviving room clears its timer so a
pending deletion cannot happen afterwards. -/
theorem expiry_scheduler_on_disconnect_only :
    (∀ (s : Server) (sid tid : SessionId) (rid' : RoomId),
      (s.rooms.map Prod.fst).Nodup →
      (mget (kickH s sid tid).1.rooms rid').map Room.expiryTimer =
        (mget s.rooms rid').map Room.expiryTimer) ∧
    (∀ (s : Server) (sid : SessionId) (now : ℤ) (rid : RoomId)
       (room : Room) (sk : SockState),
      mget s.sockets sid = some sk → sk.roomId = some rid → rid ≠ "" →
      mget s.rooms rid = some room → mdel room.members sid = [] →
      mdel room.pending sid = [] →
      (room.expiryMinutes ≤ 0 →
        mget (disconnectH s sid now).1.rooms rid = none) ∧
      (0 < room.expiryMinutes →
        mget (disconnectH s sid now).1.rooms rid =
          some { room with members := [], pending := [], intel := mdel room.intel sid, expiryTimer := some (now + room.expiryMinutes * 60 * 1000) } ∧
        ∀ t, t < now + room.expiryMinutes * 60 * 1000 →
          fireExpiry (disconnectH s sid now).1 rid t =
            (disconnectH s sid now).1)) ∧
    (∀ (s : Server) (rid : RoomId) (t : ℤ) (room : Room),
      mget s.rooms rid = some room → room.expiryTimer = none →
      fireExpiry s rid t = s) ∧
    (∀ (s : Server) (sid : SessionId) (now : ℤ) (rid : RoomId)
       (nm : String) (pl : JoinPayload) (room : Room),
      ¬(rid = "" ∨ strTrim nm = "") → mget s.rooms rid = some room →
      ∀ t, fireExpiry (joinRoom s sid now rid nm pl).1 rid t =
        (joinRoom s sid now rid nm pl).1) := by
  refine ⟨kickH_timer_frame, ?_, ?_, ?_⟩
  · intro s sid now rid room sk hsock hrid hne hroom hmem hpend
    have h := disconnectH_empty_schedules s sid now rid room sk hsock hrid
      hne hroom hmem hpend
    refine ⟨h.1, fun hk => ⟨h.2 hk, fun t ht => ?_⟩⟩
    exact (fireExpiry_noop _ rid t _ (h.2 hk)).1 _ rfl ht
  · intro s rid t room hroom htimer
    exact (fireExpiry_noop s rid t room hroom).2 htimer
  · intro s sid now rid nm pl room hval hroom t
    have h := joinRoom_timer_none s sid now rid nm pl room hval hroom
    cases hg : mget (joinRoom s sid now rid nm pl).1.rooms rid with
    | none => rw [hg] at h; exact absurd h (by simp)
    | some room' =>
      rw [hg] at h
      have htimer : room'.expiryTimer = none := by simpa using h
      exact (fireExpiry_noop _ rid t room' hg).2 htimer

/-- Fixture: the solo-host room with a positive expiry configuration. -/
def soloHostRoom5 : Room where
  creatorId := "h"
  password := none
  scheduledAt := none
  expiryMinutes := 5
  waitingRoom := false
  members := [("h", ⟨"host"⟩)]
  pending := []
  expiryTimer := none
  intel := [("h", freshIntel)]

def soloHostServer5 : Server :=
  { rooms := [("r", soloHostRoom5)], sockets := [("h", hostSock)] }

/-- C2 witness: the amended theorem at concrete inputs — kick leaves the
timer map unchanged, the last disconnect with `expiryMinutes = 5` stores a
timer due at 300000 ms and firing at 299999 ms is a no-op. -/
theorem expiry_scheduler_witness :
    (mget (kickH twoMemberServer "h" "x").1.rooms "r").map Room.expiryTimer =
      (mget twoMemberServer.rooms "r").map Room.expiryTimer ∧
    mget (disconnectH soloHostServer "h" 0).1.rooms "r" = none ∧
    mget (disconnectH soloHostServer5 "h" 0).1.rooms "r" =
      some { soloHostRoom5 with members := [], pending := [], intel := [], expiryTimer := some 300000 } ∧
    fireExpiry (disconnectH soloHostServer5 "h" 0).1 "r" 299999 =
      (disconnectH soloHostServer5 "h" 0).1 := by
  have hk := expiry_scheduler_on_disconnect_only.1 twoMemberServer "h" "x" "r"
    (by decide)
  have hd0 := (expiry_scheduler_on_disconnect_only.2.1 soloHostServer "h" 0
    "r" soloHostRoom hostSock
    (by decide) (by decide) (by decide) (by decide) (by decide) (by decide)).1
    (by decide)
  have hd5 := (expiry_scheduler_on_disconnect_only.2.1 soloHostServer5 "h" 0
    "r" soloHostRoom5 hostSock
    (by decide) (by decide) (by decide) (by decide) (by decide) (by decide)).2
    (by decide)
  refine ⟨hk, hd0, ?_, hd5.2 299999 (by decide)⟩
  rw [hd5.1]
  decide

end ShunyaCode

namespace ShunyaCode

/-- Folding a trace of timed telemetry receptions through the sampling
core. -/
def runIntel (e : IntelEntry) : List (ℤ × Snapshot) → IntelEntry
  | [] => e
  | (t, d) :: rest => runIntel (updateIntel e t d) rest

/-- The times at which a trace of receptions actually appends to the
history (the receptions that pass the one-second sampling gate). -/
def appendTimes (e : IntelEntry) : List (ℤ × Snapshot) → List ℤ
  | [] => []
  | (t, d) :: rest =>
    if INTEL_HISTORY_SAMPLE_INTERVAL_MS ≤ t - e.lastSampleTime then
      t :: appendTimes (updateIntel e t d) rest
    else appendTimes (updateIntel e t d) rest

theorem updateIntel_latest (e : IntelEntry) (t : ℤ) (d : Snapshot) :
    (updateIntel e t d).latest = d := by
  unfold updateIntel
  dsimp only
  split <;> rfl

theorem updateIntel_length_le (e : IntelEntry) (t : ℤ) (d : Snapshot)
    (h : e.history.length ≤ INTEL_MAX_HISTORY_LENGTH) :
    (updateIntel e t d).history.length ≤ INTEL_MAX_HISTORY_LENGTH := by
  unfold updateIntel
  dsimp only
  split
  · split <;> simp_all [List.length_tail, List.length_append]
  · exact h

theorem updateIntel_last_append (e : IntelEntry) (t : ℤ) (d : Snapshot)
    (h : INTEL_HISTORY_SAMPLE_INTERVAL_MS ≤ t - e.lastSampleTime) :
    (updateIntel e t d).lastSampleTime = t := by
  unfold updateIntel
  dsimp only
  rw [if_pos h]

theorem updateIntel_last_skip (e : IntelEntry) (t : ℤ) (d : Snapshot)
    (h : ¬ INTEL_HISTORY_SAMPLE_INTERVAL_MS ≤ t - e.lastSampleTime) :
    (updateIntel e t d).lastSampleTime = e.lastSampleTime := by
  unfold updateIntel
  dsimp only
  rw [if_neg h]

theorem runIntel_length_le (tr : List (ℤ × Snapshot)) (e : IntelEntry)
    (h : e.history.length ≤ INTEL_MAX_HISTORY_LENGTH) :
    (runIntel e tr).history.length ≤ INTEL_MAX_HISTORY_LENGTH := by
  induction tr generalizing e with
  | nil => exact h
  | cons p rest ih =>
    obtain ⟨t, d⟩ := p
    exact ih _ (updateIntel_length_le e t d h)

theorem runIntel_latest_last (tr : List (ℤ × Snapshot)) (e : IntelEntry)
    (t : ℤ) (d : Snapshot) :
    (runIntel e (tr ++ [(t, d)])).latest = d := by
  induction tr generalizing e with
  | nil => exact updateIntel_latest e t d
  | cons p rest ih =>
    obtain ⟨t', d'⟩ := p
    exact ih (updateIntel e t' d')

theorem appendTimes_chain (tr : List (ℤ × Snapshot)) (e : IntelEntry) :
    List.Chain' (fun a b => a + INTEL_HISTORY_SAMPLE_INTERVAL_MS ≤ b)
      (e.lastSampleTime :: appendTimes e tr) := by
  induction tr generalizing e with
  | nil => simp [appendTimes]
  | cons p rest ih =>
    obtain ⟨t, d⟩ := p
    unfold appendTimes
    by_cases hg : INTEL_HISTORY_SAMPLE_INTERVAL_MS ≤ t - e.lastSampleTime
    · rw [if_pos hg]
      rw [List.chain'_cons]
      constructor
      · omega
      · have := ih (updateIntel e t d)
        rwa [updateIntel_last_append e t d hg] at this
    · rw [if_neg hg]
      have := ih (updateIntel e t d)
      rwa [updateIntel_last_skip e t d hg] at this

theorem updateIntel_cap_drop (e : IntelEntry) (t : ℤ) (d : Snapshot)
    (hg : INTEL_HISTORY_SAMPLE_INTERVAL_MS ≤ t - e.lastSampleTime)
    (hlen : e.history.length = INTEL_MAX_HISTORY_LENGTH) :
    (updateIntel e t d).history = e.history.tail ++ [d] ∧
    (updateIntel e t d).history.length = INTEL_MAX_HISTORY_LENGTH := by
  have hover : INTEL_MAX_HISTORY_LENGTH < (e.history ++ [d]).length := by
    simp [hlen]
  have hne : e.history ≠ [] := by
    intro he
    rw [he] at hlen
    simp [INTEL_MAX_HISTORY_LENGTH] at hlen
  have htail : (e.history ++ [d]).tail = e.history.tail ++ [d] := by
    cases hh : e.history with
    | nil => exact absurd hh hne
    | cons x xs => rfl
  constructor
  · unfold updateIntel
    dsimp only
    rw [if_pos hg, if_pos hover, htail]
  · unfold updateIntel
    dsimp only
    rw [if_pos hg, if_pos hover, htail]
    have : e.history.tail.length = INTEL_MAX_HISTORY_LENGTH - 1 := by
      simp [List.length_tail, hlen]
    simp [this, INTEL_MAX_HISTORY_LENGTH]

/-- C8: the telemetry sampling gate's invariants — every reception
overwrites `current`; the history never exceeds the 86400-entry cap after
any trace of receptions; the times of consecutive history appends are
always at least one second (1000 ms) apart; and an append at the cap
drops the oldest entry first. -/
theorem telemetry_history_invariants :
    (∀ (e : IntelEntry) (t : ℤ) (d : Snapshot),
      (updateIntel e t d).latest = d) ∧
    (∀ (e : IntelEntry) (tr : List (ℤ × Snapshot)),
      e.history.length ≤ INTEL_MAX_HISTORY_LENGTH →
      (runIntel e tr).history.length ≤ INTEL_MAX_HISTORY_LENGTH) ∧
    (∀ (e : IntelEntry) (tr : List (ℤ × Snapshot)),
      List.Chain' (fun a b => a + INTEL_HISTORY_SAMPLE_INTERVAL_MS ≤ b)
        (e.lastSampleTime :: appendTimes e tr)) ∧
    (∀ (e : IntelEntry) (t : ℤ) (d : Snapshot),
      INTEL_HISTORY_SAMPLE_INTERVAL_MS ≤ t - e.lastSampleTime →
      e.history.length = INTEL_MAX_HISTORY_LENGTH →
      (updateIntel e t d).history = e.history.tail ++ [d] ∧
      (updateIntel e t d).history.length = INTEL_MAX_HISTORY_LENGTH) :=
  ⟨updateIntel_latest,
   fun e tr h => runIntel_length_le tr e h,
   fun e tr => appendTimes_chain tr e,
   updateIntel_cap_drop⟩

/-- A telemetry record sitting exactly at the history cap. -/
def cappedEntry : IntelEntry :=
  { latest := [], history := List.replicate INTEL_MAX_HISTORY_LENGTH [],
    lastSampleTime := 0 }

theorem cappedEntry_last : cappedEntry.lastSampleTime = 0 := rfl

theorem cappedEntry_len :
    cappedEntry.history.length = INTEL_MAX_HISTORY_LENGTH := by
  simp [cappedEntry]

/-- C8 witness: the invariants applied at concrete inputs — a burst of
three receptions within 2.5 s yields two appends 1.5 s apart and a
bounded history, and an append at the cap drops the oldest entry. -/
theorem telemetry_history_witness :
    (updateIntel freshIntel 1000 [5]).latest = [5] ∧
    (runIntel freshIntel [(1000, [1]), (1500, [2]), (2500, [3])]).history.length
      ≤ INTEL_MAX_HISTORY_LENGTH ∧
    List.Chain' (fun a b => a + INTEL_HISTORY_SAMPLE_INTERVAL_MS ≤ b)
      (freshIntel.lastSampleTime ::
        appendTimes freshIntel [(1000, [1]), (1500, [2]), (2500, [3])]) ∧
    (updateIntel cappedEntry 2000 [7]).history =
      cappedEntry.history.tail ++ [[7]] ∧
    (updateIntel cappedEntry 2000 [7]).history.length =
      INTEL_MAX_HISTORY_LENGTH :=
  ⟨telemetry_history_invariants.1 freshIntel 1000 [5],
   telemetry_history_invariants.2.1 freshIntel
     [(1000, [1]), (1500, [2]), (2500, [3])] (by decide),
   telemetry_history_invariants.2.2.1 freshIntel
     [(1000, [1]), (1500, [2]), (2500, [3])],
   (telemetry_history_invariants.2.2.2 cappedEntry 2000 [7]
     (by rw [cappedEntry_last]; decide) cappedEntry_len).1,
   (telemetry_history_invariants.2.2.2 cappedEntry 2000 [7]
     (by rw [cappedEntry_last]; decide) cappedEntry_len).2⟩

end ShunyaCode

namespace ShunyaCode

/-- C9: after a telemetry-snapshot update from a member of a room with a
creator, the handler emits exactly one event — the combined dashboard
built by `dashRows` over the updated telemetry map — addressed to the
creator's connection; resolved against the live connections, every
delivered copy goes to the creator and a non-creator session never
receives anything from this handler. -/
theorem intel_dashboard_creator_only (s : Server) (sid : SessionId)
    (nowMs : ℤ) (payload : Option Snapshot) (rid : RoomId) (room : Room)
    (hfind : getRoomBySocket s.rooms sid = some (rid, room))
    (hne : rid ≠ "") (hcr : room.creatorId ≠ "") :
    (intelMetricsH s sid nowMs payload).2 =
      [⟨.session room.creatorId,
        .intelDashboard (dashRows { room with intel := mset room.intel sid (updateIntel ((mget room.intel sid).getD freshIntel) nowMs (payload.getD [])) })⟩] ∧
    (∀ x ev, (x, ev) ∈ deliverAll (intelMetricsH s sid nowMs payload).1
        (intelMetricsH s sid nowMs payload).2 → x = room.creatorId) ∧
    (∀ x, x ≠ room.creatorId → ∀ ev,
      (x, ev) ∉ deliverAll (intelMetricsH s sid nowMs payload).1
        (intelMetricsH s sid nowMs payload).2) := by
  have heq : (intelMetricsH s sid nowMs payload).2 =
      [⟨.session room.creatorId,
        .intelDashboard (dashRows { room with intel := mset room.intel sid (updateIntel ((mget room.intel sid).getD freshIntel) nowMs (payload.getD [])) })⟩] := by
    unfold intelMetricsH
    rw [hfind]
    dsimp only
    rw [if_neg hne, if_neg hcr]
  refine ⟨heq, ?_, ?_⟩
  · intro x ev hx
    rw [heq] at hx
    simp only [deliverAll, List.map, List.flatten, List.append_nil] at hx
    unfold deliverEmit at hx
    dsimp only at hx
    split at hx
    · simp at hx
      exact hx.1
    · simp at hx
  · intro x hx ev hmem
    exact hx (by
      have h2 : ∀ y ev', (y, ev') ∈ deliverAll (intelMetricsH s sid nowMs payload).1
          (intelMetricsH s sid nowMs payload).2 → y = room.creatorId := by
        intro y ev' hy
        rw [heq] at hy
        simp only [deliverAll, List.map, List.flatten, List.append_nil] at hy
        unfold deliverEmit at hy
        dsimp only at hy
        split at hy
        · simp at hy
          exact hy.1
        · simp at hy
      exact h2 x ev hmem)

/-- C9 witness: the dashboard theorem at the concrete two-member room —
the emission goes to the session of creator `h` and the non-creator `x`
receives nothing. -/
theorem intel_dashboard_witness :
    (intelMetricsH twoMemberServer "x" 1000 (some [4])).2 =
      [⟨.session twoMemberRoom.creatorId,
        .intelDashboard (dashRows { twoMemberRoom with intel := mset twoMemberRoom.intel "x" (updateIntel ((mget twoMemberRoom.intel "x").getD freshIntel) 1000 ((some [4]).getD [])) })⟩] ∧
    ("x", Ev.muteAudio) ∉ deliverAll
      (intelMetricsH twoMemberServer "x" 1000 (some [4])).1
      (intelMetricsH twoMemberServer "x" 1000 (some [4])).2 :=
  ⟨(intel_dashboard_creator_only twoMemberServer "x" 1000 (some [4]) "r"
      twoMemberRoom (by decide) (by decide) (by decide)).1,
   (intel_dashboard_creator_only twoMemberServer "x" 1000 (some [4]) "r"
      twoMemberRoom (by decide) (by decide) (by decide)).2.2 "x" (by decide)
      Ev.muteAudio⟩

end ShunyaCode
